import Mathlib

/-!
Shallow embedding of the approval-workflow core of the reviewed
document-management prototype (src/app.py).

The relational store is modelled as an explicit record of tables (lists of
rows, kept in insertion order, as a SQLite table scan returns them).  The
`uuid.uuid4()` / `now_iso()` generators are modelled by a single monotone
counter `nextId` threaded through the state: each generated id and each
`created_at` timestamp is the counter value at insertion time (the real
timestamps are monotone at second granularity; the counter keeps the same
ordering, which is all `ORDER BY created_at` observes).  Timestamp columns
that are written but never read back by the core (`decided_at`,
`completed_at`, `started_at`) are omitted.
-/

namespace AGCDMS

/-! ## List utilities (stable insertion sort, used to model SQL ORDER BY) -/

/-- Insert `x` into `l`, keeping elements `y` with `le x y = false` before it
(stable insertion for a `≤`-style predicate). -/
def insortBy (le : α → α → Bool) (x : α) : List α → List α
  | [] => [x]
  | y :: ys => if le x y then x :: y :: ys else y :: insortBy le x ys

/-- Stable insertion sort by the boolean predicate `le`. -/
def sortBy (le : α → α → Bool) : List α → List α
  | [] => []
  | x :: xs => insortBy le x (sortBy le xs)

/-- Lexicographic order on character lists by codepoint.  SQLite's default
BINARY collation compares UTF-8 bytes, which coincides with codepoint
lexicographic order; this models `ORDER BY name` and is kernel-computable. -/
def charListLe : List Char → List Char → Bool
  | [], _ => true
  | _ :: _, [] => false
  | c :: cs, d :: ds =>
    if c.toNat = d.toNat then charListLe cs ds
    else decide (c.toNat < d.toNat)

/-- The string ordering used by SQL `ORDER BY` on text columns. -/
def strLe (a b : String) : Bool :=
  charListLe a.data b.data

/-- `needle` occurs as a contiguous sublist of `hay` (models Python
`needle in hay` on strings, over the underlying character lists). -/
def listContainsSub (needle : List Char) : List Char → Bool
  | [] => needle.isEmpty
  | c :: rest => needle.isPrefixOf (c :: rest) || listContainsSub needle rest

/-- Python substring test `needle in hay`. -/
def strContains (hay needle : String) : Bool :=
  listContainsSub needle.data hay.data

/-! ## Data model: rows of the relational tables used by the core -/

/-- Row of `users` (`id, name, email, role`); the `email` column is never
read by the core, so it is omitted. -/
structure UserRow where
  id : String
  name : String
  role : String
deriving DecidableEq, Repr

/-- The projection of a `documents` row that the workflow core reads and
writes (`id, doc_type, department, sensitivity, status`). -/
structure DocumentRow where
  id : Nat
  doc_type : String
  department : String
  sensitivity : String
  status : String
deriving DecidableEq, Repr

/-- The JSON `trigger_conditions` object of a custom workflow: each key may be
absent (`none`) or present with a list of allowed values (possibly empty),
exactly as the Python dict distinguishes `"doc_type" in conditions`. -/
structure TriggerConditions where
  doc_type : Option (List String)
  department : Option (List String)
  sensitivity : Option (List String)
deriving DecidableEq, Repr

/-- Row of `custom_workflows` (columns not read by the core are omitted). -/
structure CustomWorkflowRow where
  id : Nat
  name : String
  description : String
  trigger_conditions : TriggerConditions
  active : Bool
deriving DecidableEq, Repr

/-- Row of `workflow_steps`. -/
structure WorkflowStepRow where
  id : Nat
  workflow_id : Nat
  step_order : Nat
  step_name : String
  step_type : String
  assignee_type : String
  assignee_value : String
  required : Bool
  sla_hours : Nat
  parallel_group : Nat
deriving DecidableEq, Repr

/-- Row of `workflow_instances`. -/
structure WorkflowInstanceRow where
  id : Nat
  document_id : Nat
  workflow_id : Nat
  current_step : Nat
  status : String
deriving DecidableEq, Repr

/-- Row of `step_executions` (`started_at/completed_at/attachments`
omitted: written but never read by the core). -/
structure StepExecutionRow where
  id : Nat
  workflow_instance_id : Nat
  step_id : Nat
  assigned_to : String
  status : String
  result : Option String
  comments : String
deriving DecidableEq, Repr

/-- Row of the legacy `approvals` table; `created_at` is the monotone
insertion counter (see the header comment). -/
structure ApprovalRow where
  id : Nat
  document_id : Nat
  assigned_to : String
  status : String
  comment : String
  created_at : Nat
deriving DecidableEq, Repr

/-- The database state visible to the workflow core. -/
structure DB where
  users : List UserRow
  documents : List DocumentRow
  custom_workflows : List CustomWorkflowRow
  workflow_steps : List WorkflowStepRow
  workflow_instances : List WorkflowInstanceRow
  step_executions : List StepExecutionRow
  approvals : List ApprovalRow
  nextId : Nat
deriving DecidableEq, Repr

/-! ## Translated source functions -/

/-- `get_users`: `SELECT id, name, role FROM users ORDER BY name`. -/
def get_users (db : DB) : List UserRow :=
  sortBy (fun u v => strLe u.name v.name) db.users

/-- `get_user_by_name`: `SELECT ... FROM users WHERE name=?` + `fetchone`. -/
def get_user_by_name (db : DB) (name : String) : Option UserRow :=
  db.users.find? (fun u => u.name == name)

/-- `get_custom_workflows`: active custom workflows, `ORDER BY name`. -/
def get_custom_workflows (db : DB) : List CustomWorkflowRow :=
  sortBy (fun a b => strLe a.name b.name)
    (db.custom_workflows.filter (fun w => w.active))

/-- `get_workflow_steps`: steps of one workflow, `ORDER BY step_order`. -/
def get_workflow_steps (db : DB) (workflow_id : Nat) : List WorkflowStepRow :=
  sortBy (fun a b => decide (a.step_order ≤ b.step_order))
    (db.workflow_steps.filter (fun s => s.workflow_id == workflow_id))

/-- `resolve_assignee`: resolve who should be assigned to a step.  The
`"dynamic"` branch of the source is an empty stub falling through to
`return None`. -/
def resolve_assignee (db : DB) (assignee_type assignee_value : String)
    (_document_id : Nat) : Option String :=
  if assignee_type == "user" then
    (get_user_by_name db assignee_value).map (fun u => u.id)
  else if assignee_type == "role" then
    ((get_users db).find? (fun u => u.role == assignee_value)).map (fun u => u.id)
  else if assignee_type == "department" then
    ((get_users db).find?
      (fun u => strContains u.role "Manager" || strContains u.role "Lead")).map
      (fun u => u.id)
  else
    none

/-- The per-step loop body of `start_custom_workflow`: for each step, resolve
the assignee and, only when resolution succeeds, insert a `step_executions`
row whose status is `pending` for `step_order == 1` and `waiting` otherwise. -/
def insert_step_executions (document_id instance_id : Nat) :
    List WorkflowStepRow → DB → DB
  | [], db => db
  | step :: rest, db =>
    match resolve_assignee db step.assignee_type step.assignee_value document_id with
    | some assignee =>
      insert_step_executions document_id instance_id rest
        { db with
          step_executions := db.step_executions ++
            [{ id := db.nextId
               workflow_instance_id := instance_id
               step_id := step.id
               assigned_to := assignee
               status := if step.step_order == 1 then "pending" else "waiting"
               result := none
               comments := "" }]
          nextId := db.nextId + 1 }
    | none => insert_step_executions document_id instance_id rest db

/-- `start_custom_workflow`: inserts one `workflow_instances` row
(`current_step=1, status='active'`) and one `step_executions` row per step
with a resolvable assignee; returns the new instance id. -/
def start_custom_workflow (db : DB) (document_id workflow_id : Nat) :
    Nat × DB :=
  let instance_id := db.nextId
  let db1 : DB :=
    { db with
      workflow_instances := db.workflow_instances ++
        [{ id := instance_id
           document_id := document_id
           workflow_id := workflow_id
           current_step := 1
           status := "active" }]
      nextId := db.nextId + 1 }
  let steps := get_workflow_steps db workflow_id
  (instance_id, insert_step_executions document_id instance_id steps db1)

/-- One trigger dimension of `check_workflow_triggers`: the key may be absent
(no constraint) or present (document value must be in the stored list). -/
def trigger_dim_ok (cond : Option (List String)) (v : String) : Bool :=
  match cond with
  | none => true
  | some allowed => allowed.contains v

/-- `check_workflow_triggers`: ids of active workflows whose trigger
conditions all hold for the document, in `get_custom_workflows` order. -/
def check_workflow_triggers (db : DB) (document : DocumentRow) : List Nat :=
  ((get_custom_workflows db).filter (fun w =>
      trigger_dim_ok w.trigger_conditions.doc_type document.doc_type &&
      trigger_dim_ok w.trigger_conditions.department document.department &&
      trigger_dim_ok w.trigger_conditions.sensitivity document.sensitivity)).map
    (fun w => w.id)

/-- `UPDATE documents SET status=? WHERE id=?`. -/
def set_document_status (docs : List DocumentRow) (document_id : Nat)
    (status : String) : List DocumentRow :=
  docs.map (fun d => if d.id == document_id then { d with status := status } else d)

/-- The remaining-required count of `complete_workflow_step`:
`SELECT COUNT(*) FROM step_executions se JOIN workflow_steps ws ON
se.step_id = ws.id WHERE se.workflow_instance_id=? AND ws.required=1 AND
se.status != 'completed'` (a join row per matching `workflow_steps` row). -/
def remaining_required (execs : List StepExecutionRow)
    (steps : List WorkflowStepRow) (instance_id : Nat) : Nat :=
  ((execs.filter (fun se =>
      se.workflow_instance_id == instance_id && se.status != "completed")).map
    (fun se =>
      (steps.filter (fun ws => ws.id == se.step_id && ws.required)).length)).sum

/-- `complete_workflow_step`: unconditionally marks every `step_executions`
row matching `(workflow_instance_id, step_id, assigned_to)` as completed with
the given result; if no required row of the instance remains non-completed,
marks the instance completed and sets the document status to
Approved/Rejected according to `result`.  When the instance row is missing,
`cur.fetchone()[0]` raises in Python before `conn.commit()`, so nothing is
committed: the state is returned unchanged. -/
def complete_workflow_step (db : DB) (instance_id step_id : Nat)
    (result comments user_id : String) : DB :=
  let execs :=
    db.step_executions.map (fun se =>
      if se.workflow_instance_id == instance_id && se.step_id == step_id &&
          se.assigned_to == user_id then
        { se with status := "completed", result := some result,
                  comments := comments }
      else se)
  if remaining_required execs db.workflow_steps instance_id == 0 then
    match db.workflow_instances.find? (fun wi => wi.id == instance_id) with
    | none => db
    | some wi =>
      { db with
        step_executions := execs
        workflow_instances :=
          db.workflow_instances.map (fun x =>
            if x.id == instance_id then { x with status := "completed" } else x)
        documents :=
          if result == "approved" then
            set_document_status db.documents wi.document_id "Approved"
          else if result == "rejected" then
            set_document_status db.documents wi.document_id "Rejected"
          else db.documents }
  else { db with step_executions := execs }

/-- The fixed `APPROVAL_WORKFLOWS` table (name ↦ ordered approver list; the
description strings are not read by the core). -/
def APPROVAL_WORKFLOWS : List (String × List String) :=
  [("Simple Approval", ["Department Manager"]),
   ("Standard Review", ["Department Lead", "Department Manager"]),
   ("Engineering Review", ["Engineering Lead", "QA Reviewer", "Engineering Manager"]),
   ("Legal & Finance", ["Legal Counsel", "Finance Manager"]),
   ("Executive Approval", ["Department Manager", "Director", "VP"])]

/-- Python `workflow_type in APPROVAL_WORKFLOWS` + `APPROVAL_WORKFLOWS[t]`. -/
def lookup_workflow_template (workflow_type : String) : Option (List String) :=
  (APPROVAL_WORKFLOWS.find? (fun p => p.1 == workflow_type)).map (fun p => p.2)

/-- The user lookup of one `create_sequential_approvals` iteration: by exact
name first, then the fallback `[u for u in users if u[2] == role_name][0]`
over the name-sorted `get_users` list. -/
def lookup_approver (db : DB) (role_name : String) : Option UserRow :=
  match get_user_by_name db role_name with
  | some u => some u
  | none => (get_users db).find? (fun u => u.role == role_name)

/-- The per-approver loop body of `create_sequential_approvals` (`enumerate`
index `i` decides `pending` vs `queued`). -/
def insert_approvals (document_id : Nat) :
    List (Nat × String) → DB → DB
  | [], db => db
  | (i, role_name) :: rest, db =>
    match lookup_approver db role_name with
    | some u =>
      insert_approvals document_id rest
        { db with
          approvals := db.approvals ++
            [{ id := db.nextId
               document_id := document_id
               assigned_to := u.id
               status := if i == 0 then "pending" else "queued"
               comment := ""
               created_at := db.nextId }]
          nextId := db.nextId + 1 }
    | none => insert_approvals document_id rest db

/-- `create_sequential_approvals`: returns `false` for an unknown template;
otherwise deletes every prior approval of the document and inserts one
approval per resolvable template entry (first entry `pending`, rest
`queued`). -/
def create_sequential_approvals (db : DB) (document_id : Nat)
    (workflow_type _created_by : String) : Bool × DB :=
  match lookup_workflow_template workflow_type with
  | none => (false, db)
  | some steps =>
    let db1 : DB :=
      { db with approvals := db.approvals.filter (fun a => a.document_id != document_id) }
    (true, insert_approvals document_id steps.enum db1)

/-- `SELECT id FROM approvals WHERE document_id=? AND status='queued' ORDER BY
created_at ASC LIMIT 1`: the queued approval of the document with the least
`created_at`. -/
def first_queued (approvals : List ApprovalRow) (document_id : Nat) :
    Option ApprovalRow :=
  (approvals.filter (fun a =>
      a.document_id == document_id && a.status == "queued")).foldl
    (fun acc a =>
      match acc with
      | none => some a
      | some b => if a.created_at < b.created_at then some a else acc)
    none

/-- `decide_approval`: writes the decision into every `pending` approval of
`(document_id, approver_id)`; on `approved`, promotes the earliest queued
approval of the document to `pending`, or, if none is queued, sets the
document status to Approved; on `rejected`, sets the document status to
Rejected and skips every queued approval of the document. -/
def decide_approval (db : DB) (document_id : Nat)
    (approver_id decision comment : String) : DB :=
  let apps :=
    db.approvals.map (fun a =>
      if a.document_id == document_id && a.assigned_to == approver_id &&
          a.status == "pending" then
        { a with status := decision, comment := comment }
      else a)
  if decision == "approved" then
    match first_queued apps document_id with
    | some nxt =>
      { db with
        approvals := apps.map (fun a =>
          if a.id == nxt.id then { a with status := "pending" } else a) }
    | none =>
      { db with
        approvals := apps
        documents := set_document_status db.documents document_id "Approved" }
  else if decision == "rejected" then
    { db with
      approvals := apps.map (fun a =>
        if a.document_id == document_id && a.status == "queued" then
          { a with status := "skipped" }
        else a)
      documents := set_document_status db.documents document_id "Rejected" }
  else { db with approvals := apps }

/-! ## Spec-side definition (for the trigger-matching refinement claim) -/

/-- The trigger-matching semantics of one dimension as the spec words it:
a dimension with an empty allowed set is treated as always matching;
otherwise the document value must be in the allowed set. -/
def spec_dim_matches (allowed : Option (List String)) (v : String) : Bool :=
  match allowed with
  | none => true
  | some l => l.isEmpty || l.contains v

/-- The spec's trigger predicate: conjunctive across the three dimensions,
each dimension matching per `spec_dim_matches`. -/
def spec_trigger_matches (c : TriggerConditions) (doc : DocumentRow) : Bool :=
  spec_dim_matches c.doc_type doc.doc_type &&
  spec_dim_matches c.department doc.department &&
  spec_dim_matches c.sensitivity doc.sensitivity

/-! ## Concrete states used by the counterexample and witness theorems -/

/-- Two users; neither role contains Manager or Lead. -/
def exUsers : List UserRow :=
  [{ id := "a", name := "Alice", role := "Engineer" },
   { id := "b", name := "Bob", role := "Engineer" }]

/-- One document in Review. -/
def exDoc : DocumentRow :=
  { id := 5, doc_type := "Policy", department := "HR",
    sensitivity := "Internal", status := "Review" }

/-- A two-step strictly sequential (parallel-group 0) workflow, both steps
required, each assigned to a fixed user. -/
def dbSeq : DB :=
  { users := exUsers
    documents := [exDoc]
    custom_workflows :=
      [{ id := 100, name := "Two Step", description := "",
         trigger_conditions := { doc_type := none, department := none, sensitivity := none },
         active := true }]
    workflow_steps :=
      [{ id := 1, workflow_id := 100, step_order := 1, step_name := "First",
         step_type := "approve", assignee_type := "user", assignee_value := "Alice",
         required := true, sla_hours := 48, parallel_group := 0 },
       { id := 2, workflow_id := 100, step_order := 2, step_name := "Second",
         step_type := "approve", assignee_type := "user", assignee_value := "Bob",
         required := true, sla_hours := 48, parallel_group := 0 }]
    workflow_instances := []
    step_executions := []
    approvals := []
    nextId := 1000 }

/-- `dbSeq` after starting the two-step workflow on document 5
(instance id 1000; executions 1001 pending / 1002 waiting). -/
def dbSeqStarted : DB := (start_custom_workflow dbSeq 5 100).2

/-- A workflow whose two steps share positive parallel-group tag 1 while
having step orders 1 and 2. -/
def dbPar : DB :=
  { users := exUsers
    documents := [exDoc]
    custom_workflows :=
      [{ id := 200, name := "Par", description := "",
         trigger_conditions := { doc_type := none, department := none, sensitivity := none },
         active := true }]
    workflow_steps :=
      [{ id := 3, workflow_id := 200, step_order := 1, step_name := "A",
         step_type := "approve", assignee_type := "user", assignee_value := "Alice",
         required := true, sla_hours := 48, parallel_group := 1 },
       { id := 4, workflow_id := 200, step_order := 2, step_name := "B",
         step_type := "approve", assignee_type := "user", assignee_value := "Bob",
         required := true, sla_hours := 48, parallel_group := 1 }]
    workflow_instances := []
    step_executions := []
    approvals := []
    nextId := 2000 }

/-- An active workflow whose trigger conditions carry the `doc_type` key with
an empty allowed list. -/
def dbTrig : DB :=
  { users := exUsers
    documents := [exDoc]
    custom_workflows :=
      [{ id := 300, name := "Trig", description := "",
         trigger_conditions := { doc_type := some [], department := none, sensitivity := none },
         active := true }]
    workflow_steps := []
    workflow_instances := []
    step_executions := []
    approvals := []
    nextId := 1 }

/-- A workflow whose second step is assigned to a user name that matches no
user (the assignee rule resolves to nobody). -/
def dbUnres : DB :=
  { users := exUsers
    documents := [exDoc]
    custom_workflows :=
      [{ id := 400, name := "Unres", description := "",
         trigger_conditions := { doc_type := none, department := none, sensitivity := none },
         active := true }]
    workflow_steps :=
      [{ id := 5, workflow_id := 400, step_order := 1, step_name := "A",
         step_type := "approve", assignee_type := "user", assignee_value := "Alice",
         required := true, sla_hours := 48, parallel_group := 0 },
       { id := 6, workflow_id := 400, step_order := 2, step_name := "B",
         step_type := "approve", assignee_type := "user", assignee_value := "Zed",
         required := true, sla_hours := 48, parallel_group := 0 }]
    workflow_instances := []
    step_executions := []
    approvals := []
    nextId := 3000 }

/-- A legacy three-approver sequential chain on document 5
(u1 pending, u2 and u3 queued). -/
def dbLegacy : DB :=
  { users := exUsers
    documents := [exDoc]
    custom_workflows := []
    workflow_steps := []
    workflow_instances := []
    step_executions := []
    approvals :=
      [{ id := 1, document_id := 5, assigned_to := "u1", status := "pending",
         comment := "", created_at := 1 },
       { id := 2, document_id := 5, assigned_to := "u2", status := "queued",
         comment := "", created_at := 2 },
       { id := 3, document_id := 5, assigned_to := "u3", status := "queued",
         comment := "", created_at := 3 }]
    nextId := 10 }

/-- The legacy chain after u1's approval was recorded: u1 decided, u2
promoted to pending, u3 still queued. -/
def dbRepeat : DB :=
  { dbLegacy with
    approvals :=
      [{ id := 1, document_id := 5, assigned_to := "u1", status := "approved",
         comment := "ok", created_at := 1 },
       { id := 2, document_id := 5, assigned_to := "u2", status := "pending",
         comment := "", created_at := 2 },
       { id := 3, document_id := 5, assigned_to := "u3", status := "queued",
         comment := "", created_at := 3 }] }

/-- A user directory with two Manager/Lead-role users, listed out of name
order (Lea sorts before Mara). -/
def dbDept : DB :=
  { users :=
      [{ id := "m", name := "Mara", role := "Engineering Manager" },
       { id := "l", name := "Lea", role := "Team Lead" },
       { id := "x", name := "Alice", role := "Engineer" }]
    documents := []
    custom_workflows := []
    workflow_steps := []
    workflow_instances := []
    step_executions := []
    approvals := []
    nextId := 0 }

/-! ## General lemmas about the list utilities -/

theorem mem_insortBy (le : α → α → Bool) (x : α) (l : List α) (a : α) :
    a ∈ insortBy le x l ↔ a = x ∨ a ∈ l := by
  induction l with
  | nil => simp [insortBy]
  | cons y ys ih =>
    by_cases h : le x y
    · simp [insortBy, h]
    · simp [insortBy, h, ih]
      tauto

theorem mem_sortBy (le : α → α → Bool) (l : List α) (a : α) :
    a ∈ sortBy le l ↔ a ∈ l := by
  induction l with
  | nil => simp [sortBy]
  | cons x xs ih => simp [sortBy, mem_insortBy, ih]

/-- Inserting into a list that is `Pairwise` for a total transitive boolean
`le` preserves pairwise ordering. -/
theorem pairwise_insortBy (le : α → α → Bool)
    (htot : ∀ a b, le a b = true ∨ le b a = true)
    (htrans : ∀ a b c, le a b = true → le b c = true → le a c = true)
    (x : α) (l : List α)
    (h : l.Pairwise (fun a b => le a b = true)) :
    (insortBy le x l).Pairwise (fun a b => le a b = true) := by
  induction l with
  | nil => simp [insortBy]
  | cons y ys ih =>
    rcases List.pairwise_cons.mp h with ⟨hy, hys⟩
    by_cases hxy : le x y = true
    · rw [insortBy, if_pos hxy]
      refine List.pairwise_cons.mpr ⟨?_, h⟩
      intro b hb
      rcases List.mem_cons.mp hb with rfl | hb
      · exact hxy
      · exact htrans x y b hxy (hy b hb)
    · rw [insortBy, if_neg hxy]
      refine List.pairwise_cons.mpr ⟨?_, ih hys⟩
      intro b hb
      rcases (mem_insortBy le x ys b).mp hb with rfl | hb
      · rcases htot b y with h1 | h1
        · exact absurd h1 hxy
        · exact h1
      · exact hy b hb

theorem pairwise_sortBy (le : α → α → Bool)
    (htot : ∀ a b, le a b = true ∨ le b a = true)
    (htrans : ∀ a b c, le a b = true → le b c = true → le a c = true)
    (l : List α) :
    (sortBy le l).Pairwise (fun a b => le a b = true) := by
  induction l with
  | nil => simp [sortBy]
  | cons x xs ih => exact pairwise_insortBy le htot htrans x _ ih

/-- On a pairwise-ordered list, `find?` returns an element minimal (w.r.t. the
ordering relation) among all elements satisfying the predicate. -/
theorem find?_pairwise_min {R : α → α → Prop} {l : List α}
    (h : l.Pairwise R) {p : α → Bool} {x : α}
    (hf : l.find? p = some x) :
    ∀ y ∈ l, p y = true → x = y ∨ R x y := by
  induction l with
  | nil => simp at hf
  | cons a t ih =>
    rcases List.pairwise_cons.mp h with ⟨ha, ht⟩
    by_cases hpa : p a
    · rw [List.find?_cons_of_pos _ hpa] at hf
      cases hf
      intro y hy _
      rcases List.mem_cons.mp hy with rfl | hy
      · exact Or.inl rfl
      · exact Or.inr (ha y hy)
    · rw [List.find?_cons_of_neg _ (by simpa using hpa)] at hf
      intro y hy hpy
      rcases List.mem_cons.mp hy with rfl | hy
      · exact absurd hpy (by simpa using hpa)
      · exact ih ht hf y hy hpy

theorem charListLe_refl (a : List Char) : charListLe a a = true := by
  induction a with
  | nil => rfl
  | cons c cs ih => simp only [charListLe, if_pos rfl]; exact ih

theorem charListLe_total (a b : List Char) :
    charListLe a b = true ∨ charListLe b a = true := by
  induction a generalizing b with
  | nil => exact Or.inl rfl
  | cons c cs ih =>
    cases b with
    | nil => exact Or.inr rfl
    | cons d ds =>
      by_cases hcd : c.toNat = d.toNat
      · rcases ih ds with h | h
        · left; simp only [charListLe, if_pos hcd]; exact h
        · right; simp only [charListLe, if_pos hcd.symm]; exact h
      · rcases Nat.lt_or_ge c.toNat d.toNat with h | h
        · left; simp only [charListLe, if_neg hcd]; exact decide_eq_true h
        · have hdc : d.toNat < c.toNat :=
            Nat.lt_of_le_of_ne h (fun he => hcd he.symm)
          have hne : d.toNat ≠ c.toNat := fun he => hcd he.symm
          right
          simp only [charListLe, if_neg hne]
          exact decide_eq_true hdc

theorem charListLe_trans (a b c : List Char)
    (h1 : charListLe a b = true) (h2 : charListLe b c = true) :
    charListLe a c = true := by
  induction a generalizing b c with
  | nil => rfl
  | cons x xs ih =>
    cases b with
    | nil => simp [charListLe] at h1
    | cons y ys =>
      cases c with
      | nil => simp [charListLe] at h2
      | cons z zs =>
        simp only [charListLe] at h1 h2 ⊢
        by_cases hxy : x.toNat = y.toNat
        · rw [if_pos hxy] at h1
          by_cases hyz : y.toNat = z.toNat
          · rw [if_pos hyz] at h2
            rw [if_pos (hxy.trans hyz)]
            exact ih ys zs h1 h2
          · rw [if_neg hyz] at h2
            have hlt : x.toNat < z.toNat := hxy ▸ of_decide_eq_true h2
            rw [if_neg (Nat.ne_of_lt hlt)]
            exact decide_eq_true hlt
        · rw [if_neg hxy] at h1
          have hlt1 := of_decide_eq_true h1
          by_cases hyz : y.toNat = z.toNat
          · have hlt : x.toNat < z.toNat := hyz ▸ hlt1
            rw [if_neg (Nat.ne_of_lt hlt)]
            exact decide_eq_true hlt
          · rw [if_neg hyz] at h2
            have hlt : x.toNat < z.toNat :=
              Nat.lt_trans hlt1 (of_decide_eq_true h2)
            rw [if_neg (Nat.ne_of_lt hlt)]
            exact decide_eq_true hlt

/-- Mapping a guarded update over a list where the guard never fires is the
identity. -/
theorem map_if_neg_eq {l : List α} {cond : α → Bool} {f : α → α}
    (h : ∀ a ∈ l, cond a = false) :
    (l.map fun a => if cond a then f a else a) = l := by
  induction l with
  | nil => rfl
  | cons x t ih =>
    simp only [List.map_cons, h x (List.mem_cons_self x t), Bool.false_eq_true,
      if_false, List.cons.injEq, true_and]
    exact ih fun a ha => h a (List.mem_cons_of_mem x ha)

/-! ## General lemmas about the translated functions -/

/-- `resolve_assignee` reads only the `users` table (the document id is dead
in the source: every branch ignores it). -/
theorem resolve_assignee_congr (db1 db2 : DB) (h : db1.users = db2.users)
    (t v : String) (d1 d2 : Nat) :
    resolve_assignee db1 t v d1 = resolve_assignee db2 t v d2 := by
  simp only [resolve_assignee, get_user_by_name, get_users, h]

theorem insert_step_executions_users (document_id instance_id : Nat)
    (steps : List WorkflowStepRow) (db : DB) :
    (insert_step_executions document_id instance_id steps db).users = db.users := by
  induction steps generalizing db with
  | nil => rfl
  | cons s rest ih =>
    cases h : resolve_assignee db s.assignee_type s.assignee_value document_id with
    | some a => simp only [insert_step_executions, h]; exact ih _
    | none => simp only [insert_step_executions, h]; exact ih db

theorem insert_step_executions_instances (document_id instance_id : Nat)
    (steps : List WorkflowStepRow) (db : DB) :
    (insert_step_executions document_id instance_id steps db).workflow_instances =
      db.workflow_instances := by
  induction steps generalizing db with
  | nil => rfl
  | cons s rest ih =>
    cases h : resolve_assignee db s.assignee_type s.assignee_value document_id with
    | some a => simp only [insert_step_executions, h]; exact ih _
    | none => simp only [insert_step_executions, h]; exact ih db

/-- Every execution row present after the instantiation loop is either an old
row or was created for one of the given steps, with the assignee its rule
resolved to and a status decided solely by `step_order == 1`. -/
theorem mem_insert_step_executions (document_id instance_id : Nat)
    (steps : List WorkflowStepRow) (db : DB) :
    ∀ e ∈ (insert_step_executions document_id instance_id steps db).step_executions,
      e ∈ db.step_executions ∨
      ∃ s ∈ steps, e.step_id = s.id ∧ e.workflow_instance_id = instance_id ∧
        resolve_assignee db s.assignee_type s.assignee_value document_id =
          some e.assigned_to ∧
        e.status = (if s.step_order == 1 then "pending" else "waiting") := by
  induction steps generalizing db with
  | nil => intro e he; exact Or.inl he
  | cons s rest ih =>
    intro e he
    cases h : resolve_assignee db s.assignee_type s.assignee_value document_id with
    | some a =>
      simp only [insert_step_executions, h] at he
      rcases ih _ e he with hold | ⟨s2, hs2, h1, h2, h3, h4⟩
      · simp only [List.mem_append, List.mem_singleton] at hold
        rcases hold with hold | rfl
        · exact Or.inl hold
        · exact Or.inr ⟨s, List.mem_cons_self s rest, rfl, rfl, h, rfl⟩
      · refine Or.inr ⟨s2, List.mem_cons_of_mem s hs2, h1, h2, ?_, h4⟩
        rw [← h3]
        exact resolve_assignee_congr db _ rfl s2.assignee_type s2.assignee_value
          document_id document_id
    | none =>
      simp only [insert_step_executions, h] at he
      rcases ih db e he with hold | ⟨s2, hs2, hrest⟩
      · exact Or.inl hold
      · exact Or.inr ⟨s2, List.mem_cons_of_mem s hs2, hrest⟩

/-- The step-execution table produced by `complete_workflow_step` when the
instance row exists: every row matching the
`(workflow_instance_id, step_id, assigned_to)` triple is overwritten, all
other rows are kept as they are. -/
theorem complete_workflow_step_execs (db : DB) (instance_id step_id : Nat)
    (result comments user_id : String)
    (hwi : ∃ wi ∈ db.workflow_instances, wi.id = instance_id) :
    (complete_workflow_step db instance_id step_id result comments user_id).step_executions =
      db.step_executions.map (fun se =>
        if se.workflow_instance_id == instance_id && se.step_id == step_id &&
            se.assigned_to == user_id then
          { se with status := "completed", result := some result,
                    comments := comments }
        else se) := by
  obtain ⟨wi, hmem, hid⟩ := hwi
  have hfind : (db.workflow_instances.find? (fun x => x.id == instance_id)).isSome := by
    apply List.find?_isSome.mpr
    exact ⟨wi, hmem, by simp [hid]⟩
  unfold complete_workflow_step
  split
  · rename_i hnone
    rw [hnone] at hfind
    simp at hfind
  · dsimp only
    split
    · rfl
    · rfl

/-- The insertion loop of `create_sequential_approvals` only adds approvals
whose `id` is the (monotone) fresh counter: every approval of the target
document present afterwards and not bounded below by `n` must have been
there before. -/
theorem insert_approvals_id_lower (document_id : Nat)
    (l : List (Nat × String)) (db : DB) (n : Nat) (hn : n ≤ db.nextId)
    (h : ∀ a ∈ db.approvals, a.document_id = document_id → n ≤ a.id) :
    ∀ a ∈ (insert_approvals document_id l db).approvals,
      a.document_id = document_id → n ≤ a.id := by
  induction l generalizing db with
  | nil => exact h
  | cons p rest ih =>
    cases p with
    | mk i role_name =>
      cases hu : lookup_approver db role_name with
      | some u =>
        simp only [insert_approvals, hu]
        apply ih
        · exact Nat.le_succ_of_le hn
        · intro a ha hdoc
          simp only [List.mem_append, List.mem_singleton] at ha
          rcases ha with ha | rfl
          · exact h a ha hdoc
          · exact hn
      | none =>
        simp only [insert_approvals, hu]
        exact ih db hn h

/-- On a list whose elements all have `created_at` at least that of `b`, the
running-minimum fold of `first_queued` keeps `b`. -/
theorem foldl_min_created (l : List ApprovalRow) (b : ApprovalRow)
    (h : ∀ a ∈ l, ¬(a.created_at < b.created_at)) :
    l.foldl (fun acc a =>
      match acc with
      | none => some a
      | some x => if a.created_at < x.created_at then some a else acc)
      (some b) = some b := by
  induction l with
  | nil => rfl
  | cons a t ih =>
    have ha : ¬(a.created_at < b.created_at) := h a (List.mem_cons_self a t)
    simp only [List.foldl_cons, if_neg ha]
    exact ih fun x hx => h x (List.mem_cons_of_mem a hx)

/-- `first_queued` of a list whose queued-for-the-document sublist is exactly
`Q`, with `created_at` strictly increasing along `Q`, is the head of `Q`. -/
theorem first_queued_of_filter (l : List ApprovalRow) (document_id : Nat)
    (Q : List ApprovalRow)
    (hfil : l.filter (fun a =>
        a.document_id == document_id && a.status == "queued") = Q)
    (hsort : Q.Pairwise (fun a b => a.created_at < b.created_at)) :
    first_queued l document_id = Q.head? := by
  unfold first_queued
  rw [hfil]
  cases Q with
  | nil => rfl
  | cons q t =>
    rcases List.pairwise_cons.mp hsort with ⟨hq, _⟩
    simp only [List.foldl_cons, List.head?_cons]
    exact foldl_min_created t q fun a ha => Nat.not_lt.mpr (Nat.le_of_lt (hq a ha))

/-- An approved decision on a document none of whose approvals is queued
sets the document status to Approved (the promotion query finds nothing). -/
theorem decide_approval_approved_no_queued (db : DB) (document_id : Nat)
    (v c2 : String)
    (h : ∀ a ∈ db.approvals, a.document_id = document_id →
      a.status ≠ "queued") :
    (decide_approval db document_id v "approved" c2).documents =
      set_document_status db.documents document_id "Approved" := by
  have hnoq : ∀ x ∈ db.approvals.map (fun a =>
      if a.document_id == document_id && a.assigned_to == v &&
          a.status == "pending" then
        { a with status := "approved", comment := c2 }
      else a),
      ¬((x.document_id == document_id && x.status == "queued") = true) := by
    intro x hx
    rcases List.mem_map.mp hx with ⟨a, ha, rfl⟩
    cases hv : (a.document_id == document_id && a.assigned_to == v &&
        a.status == "pending") with
    | true => simp [hv]
    | false =>
      simp only [hv, Bool.false_eq_true, if_false, Bool.and_eq_true,
        beq_iff_eq, not_and]
      intro hdoc
      exact fun hqs => h a ha hdoc hqs
  have hfq : first_queued (db.approvals.map (fun a =>
      if a.document_id == document_id && a.assigned_to == v &&
          a.status == "pending" then
        { a with status := "approved", comment := c2 }
      else a)) document_id = none := by
    unfold first_queued
    rw [List.filter_eq_nil_iff.mpr hnoq]
    rfl
  simp only [decide_approval]
  rw [if_pos (show ((("approved" : String) == "approved") = true) from rfl), hfq]

/-! ## Counterexample theorems -/

/-- Claim C1, counterexample: in the two-step sequential workflow of
`dbSeq`, approving step 1 does not promote step 2 — its execution is still
`waiting`, not `pending`, and the instance is still `active`.  The claimed
promotion of the next step therefore fails on the code. -/
theorem C1_cx :
    (((complete_workflow_step dbSeqStarted 1000 1 "approved" "" "a").step_executions.find?
        (fun se => se.step_id == 2)).map (fun se => se.status) = some "waiting") ∧
    ((complete_workflow_step dbSeqStarted 1000 1 "approved" "" "a").workflow_instances.map
        (fun wi => wi.status) = ["active"]) ∧
    "waiting" ≠ "pending" := by
  decide

/-- Claim C2, counterexample: rejecting pending step 1 of the two required
steps leaves the instance `active` (not `cancelled`), leaves step 2
`waiting` (not `skipped`), and leaves the document in `Review` (not
`Rejected`). -/
theorem C2_cx :
    ((complete_workflow_step dbSeqStarted 1000 1 "rejected" "" "a").workflow_instances.map
        (fun wi => wi.status) = ["active"]) ∧
    (((complete_workflow_step dbSeqStarted 1000 1 "rejected" "" "a").step_executions.find?
        (fun se => se.step_id == 2)).map (fun se => se.status) = some "waiting") ∧
    (((complete_workflow_step dbSeqStarted 1000 1 "rejected" "" "a").documents.find?
        (fun d => d.id == 5)).map (fun d => d.status) = some "Review") ∧
    "active" ≠ "cancelled" ∧ "waiting" ≠ "skipped" ∧ "Review" ≠ "Rejected" := by
  decide

/-- Claim C3, counterexample: in the legacy three-approver chain, repeating
`decide_approval` with the same `(document, approver)` does not fail and is
not a no-op: the second call promotes a further queued approval (u3 becomes
`pending` while u2 is already `pending`), so the state differs from the
state after the first call. -/
theorem C3_cx :
    (((decide_approval (decide_approval dbLegacy 5 "u1" "approved" "ok") 5 "u1" "approved"
          "ok").approvals.find? (fun a => a.id == 3)).map (fun a => a.status) =
        some "pending") ∧
    (((decide_approval dbLegacy 5 "u1" "approved" "ok").approvals.find?
        (fun a => a.id == 3)).map (fun a => a.status) = some "queued") ∧
    decide_approval (decide_approval dbLegacy 5 "u1" "approved" "ok") 5 "u1" "approved" "ok" ≠
      decide_approval dbLegacy 5 "u1" "approved" "ok" := by
  decide

/-- Claim C4, counterexample: a decision on a step whose execution is in
`waiting` (neither `pending` nor `in_progress`) is accepted: the execution is
marked `completed`.  No precondition on the step status exists in the code. -/
theorem C4_cx :
    ((dbSeqStarted.step_executions.find? (fun se => se.id == 1002)).map
        (fun se => se.status) = some "waiting") ∧
    (((complete_workflow_step dbSeqStarted 1000 2 "approved" "" "b").step_executions.find?
        (fun se => se.id == 1002)).map (fun se => se.status) = some "completed") ∧
    "waiting" ≠ "pending" ∧ "waiting" ≠ "in_progress" := by
  decide

/-- Claim C5, counterexample: in `dbPar` both steps carry positive
parallel-group tag 1 and the leading step has order 1, yet the order-2 step
of the same group starts `waiting`, not `pending`: instantiation ignores
parallel-group tags. -/
theorem C5_cx :
    (dbPar.workflow_steps.map (fun s => s.parallel_group) = [1, 1]) ∧
    (dbPar.workflow_steps.map (fun s => s.step_order) = [1, 2]) ∧
    ((((start_custom_workflow dbPar 5 200).2).step_executions.find?
        (fun se => se.step_id == 4)).map (fun se => se.status) = some "waiting") ∧
    "waiting" ≠ "pending" := by
  decide

/-- Claim C6, counterexample: starting the workflow twice for the same
document leaves two `active` instances for it — nothing is cleared or
superseded in the custom model. -/
theorem C6_cx :
    (((start_custom_workflow dbSeqStarted 5 100).2).workflow_instances.filter
        (fun wi => wi.document_id == 5 && wi.status == "active")).length = 2 := by
  decide

/-- Claim C7, counterexample: a trigger-conditions object carrying the
`doc_type` key with an empty allowed list matches every document under the
spec's reading (`spec_trigger_matches` is true), but
`check_workflow_triggers` returns the empty list — a present-but-empty
dimension never matches in the code. -/
theorem C7_cx :
    (spec_trigger_matches
        { doc_type := some [], department := none, sensitivity := none } exDoc = true) ∧
    (dbTrig.custom_workflows.map (fun w => w.trigger_conditions.doc_type) = [some []]) ∧
    check_workflow_triggers dbTrig exDoc = [] := by
  decide

/-- Claim C8, counterexample: step 6 of `dbUnres` has an assignee rule that
resolves to no user; after instantiation there is no execution record for it
at all (rather than an unassigned record plus a warning), while the instance
itself is created. -/
theorem C8_cx :
    (resolve_assignee dbUnres "user" "Zed" 5 = none) ∧
    ((dbUnres.workflow_steps.find? (fun s => s.id == 6)).isSome = true) ∧
    (((start_custom_workflow dbUnres 5 400).2).step_executions.filter
        (fun se => se.step_id == 6) = []) ∧
    ((start_custom_workflow dbUnres 5 400).2).workflow_instances.length = 1 := by
  decide

/-- Claim C9, counterexample: starting an instance for a definition id that
does not exist (999) does not fail with NotFound: a fresh `active` instance
row is created anyway (with zero step executions). -/
theorem C9_cx :
    (dbSeq.custom_workflows.find? (fun w => w.id == 999) = none) ∧
    (((start_custom_workflow dbSeq 5 999).2).workflow_instances.map
        (fun wi => wi.status) = ["active"]) ∧
    ((start_custom_workflow dbSeq 5 999).2).workflow_instances.length =
      dbSeq.workflow_instances.length + 1 := by
  decide

/-! ## Claim theorems (amended / confirmed statements) -/

/-- Claim C9 (amended): `start_custom_workflow` performs no existence check
on the definition id and never fails with NotFound: for every database and
every `workflow_id` — existing or not — it returns the fresh counter as
instance id and appends exactly one `active` instance row for the document;
the step executions of an existing definition are inserted in the same
commit. -/
theorem start_custom_workflow_always_creates (db : DB)
    (document_id workflow_id : Nat) :
    (start_custom_workflow db document_id workflow_id).1 = db.nextId ∧
    ((start_custom_workflow db document_id workflow_id).2).workflow_instances =
      db.workflow_instances ++
        [{ id := db.nextId, document_id := document_id,
           workflow_id := workflow_id, current_step := 1, status := "active" }] := by
  constructor
  · rfl
  · show (insert_step_executions document_id db.nextId
        (get_workflow_steps db workflow_id) _).workflow_instances = _
    rw [insert_step_executions_instances]

/-- Claim C7 (amended): a definition id is in the result of
`check_workflow_triggers` exactly when it belongs to an active custom
workflow each of whose trigger dimensions either is absent from the stored
conditions or contains the document's value.  A dimension key that is
present with an empty allowed list therefore never matches (it is not
treated as "always matches"). -/
theorem check_workflow_triggers_mem (db : DB) (document : DocumentRow)
    (wid : Nat) :
    wid ∈ check_workflow_triggers db document ↔
      ∃ w ∈ db.custom_workflows, w.active = true ∧ w.id = wid ∧
        trigger_dim_ok w.trigger_conditions.doc_type document.doc_type = true ∧
        trigger_dim_ok w.trigger_conditions.department document.department = true ∧
        trigger_dim_ok w.trigger_conditions.sensitivity document.sensitivity = true := by
  simp only [check_workflow_triggers, get_custom_workflows, List.mem_map,
    List.mem_filter, mem_sortBy, Bool.and_eq_true]
  constructor
  · rintro ⟨w, ⟨⟨hw, hact⟩, ⟨h1, h2⟩, h3⟩, rfl⟩
    exact ⟨w, hw, hact, rfl, h1, h2, h3⟩
  · rintro ⟨w, hw, hact, rfl, h1, h2, h3⟩
    exact ⟨w, ⟨⟨hw, hact⟩, ⟨h1, h2⟩, h3⟩, rfl⟩

/-- Claim C5 (amended): after instantiation, every step-execution row is
either a pre-existing row or belongs to one of the definition's steps, and
its initial status is decided solely by that step's order: `pending` iff
`step_order = 1`, `waiting` otherwise — parallel-group tags play no role
(and steps whose assignee rule resolves to nobody get no row at all). -/
theorem start_custom_workflow_status_by_order (db : DB)
    (document_id workflow_id : Nat) :
    ∀ e ∈ ((start_custom_workflow db document_id workflow_id).2).step_executions,
      e ∈ db.step_executions ∨
      ∃ s ∈ get_workflow_steps db workflow_id, e.step_id = s.id ∧
        e.status = (if s.step_order == 1 then "pending" else "waiting") := by
  intro e he
  rcases mem_insert_step_executions document_id db.nextId
      (get_workflow_steps db workflow_id) _ e he with hold | ⟨s, hs, h1, _, _, h4⟩
  · exact Or.inl hold
  · exact Or.inr ⟨s, hs, h1, h4⟩

/-- Witness for `start_custom_workflow_status_by_order` at `dbPar` and the
execution row created for its order-2 step. -/
theorem start_custom_workflow_status_by_order_witness :
    ({ id := 2002, workflow_instance_id := 2000, step_id := 4,
       assigned_to := "b", status := "waiting", result := none,
       comments := "" } : StepExecutionRow) ∈
      ((start_custom_workflow dbPar 5 200).2).step_executions ∧
    (({ id := 2002, workflow_instance_id := 2000, step_id := 4,
        assigned_to := "b", status := "waiting", result := none,
        comments := "" } : StepExecutionRow) ∈ dbPar.step_executions ∨
      ∃ s ∈ get_workflow_steps dbPar 200, (4 : Nat) = s.id ∧
        ("waiting" : String) =
          (if s.step_order == 1 then "pending" else "waiting")) := by
  refine ⟨by decide, ?_⟩
  exact start_custom_workflow_status_by_order dbPar 5 200
    { id := 2002, workflow_instance_id := 2000, step_id := 4,
      assigned_to := "b", status := "waiting", result := none, comments := "" }
    (by decide)

/-- Claim C8 (amended): instantiation still succeeds when a step's assignee
rule matches no user, but that step is silently omitted: every newly created
execution row belongs to a step whose rule resolved to its recorded
assignee, so an unresolved step gets no execution record (and no warning is
reported — the function returns only the instance id). -/
theorem start_custom_workflow_unresolved_omitted (db : DB)
    (document_id workflow_id : Nat) :
    ∀ e ∈ ((start_custom_workflow db document_id workflow_id).2).step_executions,
      e ∉ db.step_executions →
      ∃ s ∈ get_workflow_steps db workflow_id, e.step_id = s.id ∧
        resolve_assignee db s.assignee_type s.assignee_value document_id =
          some e.assigned_to := by
  intro e he hnew
  rcases mem_insert_step_executions document_id db.nextId
      (get_workflow_steps db workflow_id) _ e he with hold | ⟨s, hs, h1, _, h3, _⟩
  · exact absurd hold hnew
  · refine ⟨s, hs, h1, ?_⟩
    rw [← h3]
    exact resolve_assignee_congr db _ rfl s.assignee_type s.assignee_value
      document_id document_id

/-- Witness for `start_custom_workflow_unresolved_omitted` at the concrete
state `dbUnres` and the execution row created for its resolvable step 5. -/
theorem start_custom_workflow_unresolved_omitted_witness :
    ({ id := 3001, workflow_instance_id := 3000, step_id := 5,
       assigned_to := "a", status := "pending", result := none,
       comments := "" } : StepExecutionRow) ∈
      ((start_custom_workflow dbUnres 5 400).2).step_executions ∧
    ∃ s ∈ get_workflow_steps dbUnres 400, (5 : Nat) = s.id ∧
      resolve_assignee dbUnres s.assignee_type s.assignee_value 5 = some "a" := by
  refine ⟨by decide, ?_⟩
  exact start_custom_workflow_unresolved_omitted dbUnres 5 400
    { id := 3001, workflow_instance_id := 3000, step_id := 5,
      assigned_to := "a", status := "pending", result := none, comments := "" }
    (by decide) (by decide)

/-- Claim C4 (amended): `complete_workflow_step` applies the decision to a
row exactly when the row matches the `(instance, step, assignee)` triple —
regardless of the row's current status (waiting/completed/skipped rows
included), with no role-authority substitution; rows not matching the
triple are left untouched (no Unauthorized error exists). -/
theorem complete_workflow_step_applies_by_triple (db : DB)
    (instance_id step_id : Nat) (result comments user_id : String)
    (hwi : ∃ wi ∈ db.workflow_instances, wi.id = instance_id) :
    ∀ se ∈ db.step_executions,
      (se.workflow_instance_id = instance_id ∧ se.step_id = step_id ∧
          se.assigned_to = user_id →
        { se with status := "completed", result := some result,
                  comments := comments } ∈
          (complete_workflow_step db instance_id step_id result comments
            user_id).step_executions) ∧
      (¬(se.workflow_instance_id = instance_id ∧ se.step_id = step_id ∧
          se.assigned_to = user_id) →
        se ∈ (complete_workflow_step db instance_id step_id result comments
          user_id).step_executions) := by
  intro se hse
  rw [complete_workflow_step_execs db instance_id step_id result comments user_id hwi]
  constructor
  · rintro ⟨h1, h2, h3⟩
    refine List.mem_map.mpr ⟨se, hse, ?_⟩
    simp [h1, h2, h3]
  · intro hneg
    refine List.mem_map.mpr ⟨se, hse, ?_⟩
    cases hbool : (se.workflow_instance_id == instance_id &&
        se.step_id == step_id && se.assigned_to == user_id) with
    | true =>
      exfalso
      apply hneg
      simpa [Bool.and_eq_true, beq_iff_eq, and_assoc] using hbool
    | false => simp [hbool]

/-- Witness for `complete_workflow_step_applies_by_triple`: in
`dbSeqStarted`, deciding `(1000, 1, "a")` marks the matching execution row
completed. -/
theorem complete_workflow_step_applies_by_triple_witness :
    (∃ wi ∈ dbSeqStarted.workflow_instances, wi.id = 1000) ∧
    ({ id := 1001, workflow_instance_id := 1000, step_id := 1,
       assigned_to := "a", status := "completed", result := some "approved",
       comments := "" } : StepExecutionRow) ∈
      (complete_workflow_step dbSeqStarted 1000 1 "approved" "" "a").step_executions := by
  refine ⟨by decide, ?_⟩
  exact (complete_workflow_step_applies_by_triple dbSeqStarted 1000 1
      "approved" "" "a" (by decide)
      { id := 1001, workflow_instance_id := 1000, step_id := 1,
        assigned_to := "a", status := "pending", result := none, comments := "" }
      (by decide)).1 (by decide)

/-- Claim C6 (amended): supersede semantics exist only in the legacy model:
`create_sequential_approvals` (on a known template) first deletes every
prior approval of the document, so every approval of that document present
afterwards is newly inserted (its id is at least the pre-call counter);
`start_custom_workflow` clears nothing, so several active instances can
coexist for one document. -/
theorem create_sequential_approvals_supersedes (db : DB) (document_id : Nat)
    (workflow_type created_by : String)
    (hwf : (lookup_workflow_template workflow_type).isSome = true) :
    ∀ a ∈ ((create_sequential_approvals db document_id workflow_type
        created_by).2).approvals,
      a.document_id = document_id → db.nextId ≤ a.id := by
  cases h : lookup_workflow_template workflow_type with
  | none => rw [h] at hwf; simp at hwf
  | some steps =>
    simp only [create_sequential_approvals, h]
    apply insert_approvals_id_lower
    · exact Nat.le_refl _
    · intro a ha hdoc
      exfalso
      have hmem := List.mem_filter.mp ha
      rw [hdoc] at hmem
      simp at hmem

/-- Witness for `create_sequential_approvals_supersedes`: restarting a
workflow on `dbLegacy`'s document 5 leaves no approval with a pre-call id. -/
theorem create_sequential_approvals_supersedes_witness :
    (lookup_workflow_template "Simple Approval").isSome = true ∧
    ∀ a ∈ ((create_sequential_approvals dbLegacy 5 "Simple Approval"
        "u0").2).approvals,
      a.document_id = 5 → dbLegacy.nextId ≤ a.id :=
  ⟨by decide,
   create_sequential_approvals_supersedes dbLegacy 5 "Simple Approval" "u0"
     (by decide)⟩

/-- Claim C3 (amended): a repeated `decide_approval` with the same
`(document, approver)` does not fail with AlreadyDecided and is not a no-op:
when the approver has no pending approval left, the update clause matches
nothing, but the advancement still runs — the earliest queued approval of
the document is promoted to `pending`, or, if none is queued, the document's
status is set to Approved. -/
theorem decide_approval_repeat_advances (db : DB) (document_id : Nat)
    (approver_id comment : String)
    (hnp : ∀ a ∈ db.approvals, a.document_id = document_id →
      a.assigned_to = approver_id → a.status ≠ "pending") :
    (match first_queued db.approvals document_id with
     | some q =>
       (decide_approval db document_id approver_id "approved" comment).approvals =
         db.approvals.map (fun a =>
           if a.id == q.id then { a with status := "pending" } else a) ∧
       (decide_approval db document_id approver_id "approved" comment).documents =
         db.documents
     | none =>
       (decide_approval db document_id approver_id "approved" comment).approvals =
         db.approvals ∧
       (decide_approval db document_id approver_id "approved" comment).documents =
         set_document_status db.documents document_id "Approved") := by
  have happs : db.approvals.map (fun a =>
      if a.document_id == document_id && a.assigned_to == approver_id &&
          a.status == "pending" then
        { a with status := "approved", comment := comment }
      else a) = db.approvals := by
    apply map_if_neg_eq
    intro a ha
    cases hbool : (a.document_id == document_id &&
        a.assigned_to == approver_id && a.status == "pending") with
    | false => rfl
    | true =>
      exfalso
      simp only [Bool.and_eq_true, beq_iff_eq] at hbool
      exact hnp a ha hbool.1.1 hbool.1.2 hbool.2
  cases hq : first_queued db.approvals document_id with
  | some q =>
    simp only [decide_approval, happs, hq]
    exact ⟨rfl, rfl⟩
  | none =>
    simp only [decide_approval, happs, hq]
    exact ⟨rfl, rfl⟩

/-- Witness for `decide_approval_repeat_advances` at `dbRepeat` (u1 already
decided, u2 pending, u3 queued): the repeated call promotes u3. -/
theorem decide_approval_repeat_advances_witness :
    (∀ a ∈ dbRepeat.approvals, a.document_id = 5 → a.assigned_to = "u1" →
      a.status ≠ "pending") ∧
    (match first_queued dbRepeat.approvals 5 with
     | some q =>
       (decide_approval dbRepeat 5 "u1" "approved" "ok").approvals =
         dbRepeat.approvals.map (fun a =>
           if a.id == q.id then { a with status := "pending" } else a) ∧
       (decide_approval dbRepeat 5 "u1" "approved" "ok").documents =
         dbRepeat.documents
     | none =>
       (decide_approval dbRepeat 5 "u1" "approved" "ok").approvals =
         dbRepeat.approvals ∧
       (decide_approval dbRepeat 5 "u1" "approved" "ok").documents =
         set_document_status dbRepeat.documents 5 "Approved") :=
  ⟨by decide, decide_approval_repeat_advances dbRepeat 5 "u1" "ok" (by decide)⟩

/-- Claim C2 (amended): in the legacy model, a rejected decision sets the
deciding pending approval's status to `rejected`, transitions exactly the
queued approvals of the document to `skipped` (pending approvals of other
users are untouched), and sets the document's status to Rejected — but there
is no cancelled instance state, and later `recordDecision` calls are not
blocked: a subsequent approved decision (by anybody) finds no queued
approval and flips the document's status to Approved.  (In the custom model
rejection cancels nothing, see the counterexample.) -/
theorem decide_approval_rejected_effects (db : DB) (document_id : Nat)
    (approver_id comment : String) :
    ((decide_approval db document_id approver_id "rejected" comment).approvals =
      db.approvals.map (fun a =>
        if a.document_id == document_id && a.status == "queued" then
          { a with status := "skipped" }
        else if a.document_id == document_id && a.assigned_to == approver_id &&
            a.status == "pending" then
          { a with status := "rejected", comment := comment }
        else a)) ∧
    ((decide_approval db document_id approver_id "rejected" comment).documents =
      set_document_status db.documents document_id "Rejected") ∧
    (∀ v c2,
      (decide_approval
          (decide_approval db document_id approver_id "rejected" comment)
          document_id v "approved" c2).documents =
        set_document_status
          (decide_approval db document_id approver_id "rejected"
            comment).documents document_id "Approved") := by
  have hmain :
      (decide_approval db document_id approver_id "rejected" comment).approvals =
        db.approvals.map (fun a =>
          if a.document_id == document_id && a.status == "queued" then
            { a with status := "skipped" }
          else if a.document_id == document_id && a.assigned_to == approver_id &&
              a.status == "pending" then
            { a with status := "rejected", comment := comment }
          else a) := by
    simp only [decide_approval]
    rw [List.map_map]
    apply List.map_congr_left
    intro a _
    simp only [Function.comp]
    cases hpq : (a.document_id == document_id && a.status == "queued") with
    | true =>
      have hq : a.status = "queued" := by
        have := hpq
        simp only [Bool.and_eq_true, beq_iff_eq] at this
        exact this.2
      have hnp : (a.status == "pending") = false := by simp [hq]
      simp [hpq, hnp]
    | false =>
      cases hprs : (a.document_id == document_id &&
          a.assigned_to == approver_id && a.status == "pending") with
      | true =>
        have hp : a.status = "pending" := by
          have := hprs
          simp only [Bool.and_eq_true, beq_iff_eq] at this
          exact this.2
        simp [hprs, hpq, hp]
      | false =>
        simp [hprs, hpq]
  refine ⟨hmain, by simp [decide_approval], ?_⟩
  intro v c2
  apply decide_approval_approved_no_queued
  intro a ha hdoc
  rw [hmain] at ha
  rcases List.mem_map.mp ha with ⟨b, _, rfl⟩
  cases hpq : (b.document_id == document_id && b.status == "queued") with
  | true => simp [hpq]
  | false =>
    cases hprs : (b.document_id == document_id &&
        b.assigned_to == approver_id && b.status == "pending") with
    | true => simp [hpq, hprs]
    | false =>
      simp only [hpq, Bool.false_eq_true, if_false, hprs] at hdoc ⊢
      intro hqs
      have : (b.document_id == document_id && b.status == "queued") = true := by
        simp [hdoc, hqs]
      rw [this] at hpq
      exact Bool.true_eq_false.mp hpq

/-- Claim C1 (amended): the claimed per-approval behavior holds in the
legacy approvals model: in a sequential chain state (already-approved
prefix, exactly one pending approval assigned to the actor, queued suffix,
in creation order with distinct ids), an approved decision records the
decision on the pending approval and promotes exactly the first queued
approval to `pending`; when no queued approval remains (the N-th approval),
the document's status is set to Approved.  In the custom step-execution
model the deciding step is marked completed but no next step is promoted —
it stays `waiting` (see the counterexample) — and there is no instance
completion until no required non-completed execution remains. -/
theorem decide_approval_sequential_chain (db : DB) (document_id : Nat)
    (approver_id comment : String) (A Q : List ApprovalRow) (p : ApprovalRow)
    (hshape : db.approvals = A ++ p :: Q)
    (hA : ∀ a ∈ A, a.document_id = document_id ∧ a.status = "approved")
    (hp : p.document_id = document_id ∧ p.assigned_to = approver_id ∧
      p.status = "pending")
    (hQ : ∀ a ∈ Q, a.document_id = document_id ∧ a.status = "queued")
    (hca : db.approvals.Pairwise (fun a b => a.created_at < b.created_at))
    (hid : db.approvals.Pairwise (fun a b => a.id ≠ b.id)) :
    (Q = [] →
      (decide_approval db document_id approver_id "approved" comment).approvals =
        A ++ [{ p with status := "approved", comment := comment }] ∧
      (decide_approval db document_id approver_id "approved" comment).documents =
        set_document_status db.documents document_id "Approved") ∧
    (∀ qh qt, Q = qh :: qt →
      (decide_approval db document_id approver_id "approved" comment).approvals =
        A ++ { p with status := "approved", comment := comment } ::
          { qh with status := "pending" } :: qt ∧
      (decide_approval db document_id approver_id "approved" comment).documents =
        db.documents) := by
  have happs : db.approvals.map (fun a =>
      if a.document_id == document_id && a.assigned_to == approver_id &&
          a.status == "pending" then
        { a with status := "approved", comment := comment }
      else a) =
      A ++ { p with status := "approved", comment := comment } :: Q := by
    rw [hshape, List.map_append, List.map_cons]
    have h1 : A.map (fun a =>
        if a.document_id == document_id && a.assigned_to == approver_id &&
            a.status == "pending" then
          { a with status := "approved", comment := comment }
        else a) = A := by
      apply map_if_neg_eq
      intro a ha
      simp [(hA a ha).2]
    have h2 : Q.map (fun a =>
        if a.document_id == document_id && a.assigned_to == approver_id &&
            a.status == "pending" then
          { a with status := "approved", comment := comment }
        else a) = Q := by
      apply map_if_neg_eq
      intro a ha
      simp [(hQ a ha).2]
    rw [h1, h2]
    congr 1
    simp [hp.1, hp.2.1, hp.2.2]
  have hfil : (db.approvals.map (fun a =>
      if a.document_id == document_id && a.assigned_to == approver_id &&
          a.status == "pending" then
        { a with status := "approved", comment := comment }
      else a)).filter (fun a =>
        a.document_id == document_id && a.status == "queued") = Q := by
    rw [happs, List.filter_append, List.filter_cons]
    have h1 : A.filter (fun a =>
        a.document_id == document_id && a.status == "queued") = [] := by
      apply List.filter_eq_nil_iff.mpr
      intro a ha
      simp [(hA a ha).2]
    have h2 : Q.filter (fun a =>
        a.document_id == document_id && a.status == "queued") = Q := by
      apply List.filter_eq_self.mpr
      intro a ha
      simp [(hQ a ha).1, (hQ a ha).2]
    rw [h1, h2]
    simp
  have hsQ : Q.Pairwise (fun a b => a.created_at < b.created_at) := by
    rw [hshape] at hca
    exact List.Pairwise.sublist
      ((List.sublist_cons_self p Q).trans (List.sublist_append_right A (p :: Q)))
      hca
  have hfq := first_queued_of_filter _ document_id Q hfil hsQ
  rw [hshape] at hid
  rcases List.pairwise_append.mp hid with ⟨_, hidR, hidX⟩
  rcases List.pairwise_cons.mp hidR with ⟨hpQ, hidQ⟩
  constructor
  · intro hQnil
    subst hQnil
    have hricht : decide_approval db document_id approver_id "approved" comment =
        { db with
          approvals := A ++ [{ p with status := "approved", comment := comment }]
          documents := set_document_status db.documents document_id "Approved" } := by
      simp only [decide_approval]
      rw [if_pos (show ((("approved" : String) == "approved") = true) from rfl),
        hfq]
      simp only [List.head?_nil]
      rw [happs]
    rw [hricht]
    exact ⟨rfl, rfl⟩
  · intro qh qt hQeq
    subst hQeq
    have hgA : A.map (fun a =>
        if a.id == qh.id then { a with status := "pending" } else a) = A := by
      apply map_if_neg_eq
      intro a ha
      exact beq_eq_false_iff_ne.mpr
        (hidX a ha qh (List.mem_cons_of_mem p (List.mem_cons_self qh qt)))
    have hgqt : qt.map (fun a =>
        if a.id == qh.id then { a with status := "pending" } else a) = qt := by
      apply map_if_neg_eq
      intro a ha
      exact beq_eq_false_iff_ne.mpr
        (Ne.symm ((List.pairwise_cons.mp hidQ).1 a ha))
    have hricht : decide_approval db document_id approver_id "approved" comment =
        { db with
          approvals := A ++ { p with status := "approved", comment := comment } ::
            { qh with status := "pending" } :: qt } := by
      simp only [decide_approval]
      rw [if_pos (show ((("approved" : String) == "approved") = true) from rfl),
        hfq]
      simp only [List.head?_cons]
      rw [happs, List.map_append, List.map_cons, List.map_cons, hgA, hgqt]
      have hne : (({ p with status := "approved", comment := comment } :
          ApprovalRow).id == qh.id) = false :=
        beq_eq_false_iff_ne.mpr (hpQ qh (List.mem_cons_self qh qt))
      simp only [hne, Bool.false_eq_true, if_false, beq_self_eq_true, if_true]
    rw [hricht]
    exact ⟨rfl, rfl⟩

/-- Witness for `decide_approval_sequential_chain` at the concrete chain
`dbLegacy` (empty approved prefix, u1 pending, u2 and u3 queued): u1's
approval promotes u2's approval and leaves the documents unchanged. -/
theorem decide_approval_sequential_chain_witness :
    (decide_approval dbLegacy 5 "u1" "approved" "ok").approvals =
      [] ++ { id := 1, document_id := 5, assigned_to := "u1",
              status := "approved", comment := "ok", created_at := 1 } ::
        { id := 2, document_id := 5, assigned_to := "u2", status := "pending",
          comment := "", created_at := 2 } ::
        [{ id := 3, document_id := 5, assigned_to := "u3", status := "queued",
           comment := "", created_at := 3 }] ∧
    (decide_approval dbLegacy 5 "u1" "approved" "ok").documents =
      dbLegacy.documents := by
  exact (decide_approval_sequential_chain dbLegacy 5 "u1" "ok" []
      [{ id := 2, document_id := 5, assigned_to := "u2", status := "queued",
         comment := "", created_at := 2 },
       { id := 3, document_id := 5, assigned_to := "u3", status := "queued",
         comment := "", created_at := 3 }]
      { id := 1, document_id := 5, assigned_to := "u1", status := "pending",
        comment := "", created_at := 1 }
      (by decide) (by decide) (by decide) (by decide) (by decide) (by decide)).2
    { id := 2, document_id := 5, assigned_to := "u2", status := "queued",
      comment := "", created_at := 2 }
    [{ id := 3, document_id := 5, assigned_to := "u3", status := "queued",
       comment := "", created_at := 3 }]
    rfl

/-- Claim C10 (confirmed): with rule kind `department`, the rule's value and
the document are ignored — the result does not depend on them; the result is
`none` exactly when no user's role contains "Manager" or "Lead"; and any
returned id belongs to a user whose role contains "Manager" or "Lead" and
whose display name is minimal (first in the `ORDER BY name` alphabetical
order) among all such users.  (The `users` table has no department column,
so the user's department plays no role trivially.) -/
theorem resolve_assignee_department_rule (db : DB) (v1 v2 : String)
    (d1 d2 : Nat) :
    resolve_assignee db "department" v1 d1 =
      resolve_assignee db "department" v2 d2 ∧
    (resolve_assignee db "department" v1 d1 = none ↔
      ∀ u ∈ db.users,
        (strContains u.role "Manager" || strContains u.role "Lead") = false) ∧
    (∀ uid, resolve_assignee db "department" v1 d1 = some uid →
      ∃ u ∈ db.users, u.id = uid ∧
        (strContains u.role "Manager" || strContains u.role "Lead") = true ∧
        ∀ w ∈ db.users,
          (strContains w.role "Manager" || strContains w.role "Lead") = true →
          strLe u.name w.name = true) := by
  have hdep : resolve_assignee db "department" v1 d1 =
      ((get_users db).find? (fun u =>
        strContains u.role "Manager" || strContains u.role "Lead")).map
        (fun u => u.id) := rfl
  have hsorted : (get_users db).Pairwise
      (fun a b => strLe a.name b.name = true) := by
    apply pairwise_sortBy
    · intro a b
      exact charListLe_total a.name.data b.name.data
    · intro a b c hab hbc
      exact charListLe_trans a.name.data b.name.data c.name.data hab hbc
  refine ⟨rfl, ?_, ?_⟩
  · rw [hdep, Option.map_eq_none', List.find?_eq_none]
    constructor
    · intro h u hu
      have hnu := h u ((mem_sortBy _ _ _).mpr hu)
      cases hb : (strContains u.role "Manager" || strContains u.role "Lead") with
      | false => rfl
      | true => exact absurd hb hnu
    · intro h u hu
      rw [h u ((mem_sortBy _ _ _).mp hu)]
      simp
  · intro uid h
    rw [hdep] at h
    rcases Option.map_eq_some'.mp h with ⟨u, hfind, huid⟩
    have hmem : u ∈ get_users db := List.mem_of_find?_eq_some hfind
    have hpred := List.find?_some hfind
    have hmin := find?_pairwise_min hsorted hfind
    refine ⟨u, (mem_sortBy _ _ _).mp hmem, huid, hpred, ?_⟩
    intro w hw hpw
    rcases hmin w ((mem_sortBy _ _ _).mpr hw) hpw with rfl | hle
    · exact charListLe_refl _
    · exact hle

/-- Witness for `resolve_assignee_department_rule` at `dbDept`: the rule
picks Lea (alphabetically first Manager/Lead user), ignoring the department
value. -/
theorem resolve_assignee_department_rule_witness :
    resolve_assignee dbDept "department" "Finance" 0 = some "l" ∧
    ∃ u ∈ dbDept.users, u.id = "l" ∧
      (strContains u.role "Manager" || strContains u.role "Lead") = true ∧
      ∀ w ∈ dbDept.users,
        (strContains w.role "Manager" || strContains w.role "Lead") = true →
        strLe u.name w.name = true := by
  refine ⟨by decide, ?_⟩
  exact (resolve_assignee_department_rule dbDept "Finance" "HR" 0 1).2.2 "l"
    (by decide)

end AGCDMS
